import Mathlib

/-!
Verification of the type-erased growable array in src/src/cvector.h.

A cvector buffer is one allocation: a three-field header (size, capacity,
element_size, each a 64-bit size_t) followed by capacity * element_size bytes
of element storage.  The embedding keeps the three header fields as naturals
below 2^64 and the element region as a byte map indexed by the offset from the
start of the element region (the C code always adds HEADER_SIZE to reach it).
size_t arithmetic that can wrap (the size decrement in pop_back, the capacity
shift in compute_next_grow, the size increments) is taken modulo 2^64;
offset arithmetic is kept in plain naturals, since a successful allocation
bounds every offset far below 2^64 (allocation failure is fatal by assert and
never returns).  realloc preserves the stored bytes, so the model's grow keeps
the byte map and rewrites the capacity field.
-/

/-- Number of values of the 64-bit size_t type used for the header fields. -/
def USIZE : Nat := 2 ^ 64

/-- Wrapping 64-bit unsigned addition, the semantics of size_t addition in C. -/
def addW (a b : Nat) : Nat := (a + b) % USIZE

/-- Wrapping 64-bit unsigned subtraction, the semantics of size_t subtraction in C. -/
def subW (a b : Nat) : Nat := (USIZE - b % USIZE + a) % USIZE

/-- sizeof(cvector_header): three 8-byte size_t fields, cached as HEADER_SIZE. -/
def HEADER_SIZE : Nat := 24

/-- A cvector buffer: the header fields plus the bytes of the element region.
data off is the byte stored at allocation offset HEADER_SIZE + off. -/
structure CVector where
  size : Nat
  capacity : Nat
  element_size : Nat
  data : Nat → Nat

/-- Effect of memmove(base + dst, base + src, len) on the element region:
the byte at dst + k becomes the old byte at src + k for k < len, every other
byte is unchanged (memmove copies as if through a temporary buffer). -/
def memmoveBytes (D : Nat → Nat) (dst src len : Nat) : Nat → Nat :=
  fun off => if dst ≤ off ∧ off < dst + len then D (src + (off - dst)) else D off

/-- Effect of memcpy(base + dst, value, len) where value is a caller buffer:
the byte at dst + k becomes value k for k < len, every other byte is unchanged. -/
def memcpyBytes (D : Nat → Nat) (dst : Nat) (value : Nat → Nat) (len : Nat) : Nat → Nat :=
  fun off => if dst ≤ off ∧ off < dst + len then value (off - dst) else D off

/-- cvector_capacity: read the capacity field of the header. -/
def cvector_capacity (v : CVector) : Nat := v.capacity

/-- cvector_size: read the size field of the header. -/
def cvector_size (v : CVector) : Nat := v.size

/-- cvector_element_size: read the element_size field of the header. -/
def cvector_element_size (v : CVector) : Nat := v.element_size

/-- cvector_set_capacity: internal setter for the capacity field. -/
def cvector_set_capacity (v : CVector) (new_capacity : Nat) : CVector :=
  { v with capacity := new_capacity }

/-- cvector_set_size: internal setter for the size field. -/
def cvector_set_size (v : CVector) (new_size : Nat) : CVector :=
  { v with size := new_size }

/-- cvector_grow: realloc the buffer to HEADER_SIZE + new_capacity * element_size
bytes (realloc preserves the stored bytes; failure is fatal via assert), then
store new_capacity in the capacity field. -/
def cvector_grow (v : CVector) (new_capacity : Nat) : CVector :=
  cvector_set_capacity v new_capacity

/-- cvector_reserve: grow only when the current capacity is below new_capacity. -/
def cvector_reserve (v : CVector) (new_capacity : Nat) : CVector :=
  if cvector_capacity v < new_capacity then cvector_grow v new_capacity else v

/-- cvector_init: malloc the header (the element region holds whatever garbage
comes with later growth), set capacity = 0, size = 0 and element_size.  The
reserve call sits inside if (!vec), so after a successful allocation it never
runs and the capacity argument is ignored. -/
def cvector_init (capacity element_size : Nat) (garbage : Nat → Nat) : CVector :=
  { size := 0, capacity := 0, element_size := element_size, data := garbage }

/-- cvector_compute_next_grow: size << 1 when size is nonzero, else 1. -/
def cvector_compute_next_grow (size : Nat) : Nat :=
  if size ≠ 0 then (size <<< 1) % USIZE else 1

/-- cvector_push_back: grow to compute_next_grow(capacity) when capacity ≤ size,
memcpy element_size bytes of value into the slot at offset element_size * size,
then store size + 1. -/
def cvector_push_back (v : CVector) (value : Nat → Nat) : CVector :=
  let grown := if cvector_capacity v ≤ cvector_size v then
      cvector_grow v (cvector_compute_next_grow (cvector_capacity v))
    else v
  let D := memcpyBytes grown.data (cvector_element_size grown * cvector_size grown)
    value (cvector_element_size grown)
  let written : CVector := { grown with data := D }
  cvector_set_size written (addW (cvector_size written) 1)

/-- cvector_insert: grow as push_back does when capacity ≤ size; when
index < size, memmove the byte range of elements index..size-1 one element
forward; memcpy value into the slot at index; store size + 1. -/
def cvector_insert (v : CVector) (index : Nat) (value : Nat → Nat) : CVector :=
  let grown := if cvector_capacity v ≤ cvector_size v then
      cvector_grow v (cvector_compute_next_grow (cvector_capacity v))
    else v
  let current_size := cvector_size grown
  let es := cvector_element_size grown
  let shiftedD := memmoveBytes grown.data (index * es + es) (index * es)
    ((current_size - index) * es)
  let shifted : CVector := if index < current_size then { grown with data := shiftedD }
    else grown
  let writtenD := memcpyBytes shifted.data (es * index) value es
  let written : CVector := { shifted with data := writtenD }
  cvector_set_size written (addW current_size 1)

/-- cvector_pop_back: store size - 1, a size_t subtraction that wraps on 0. -/
def cvector_pop_back (v : CVector) : CVector :=
  cvector_set_size v (subW (cvector_size v) 1)

/-- cvector_remove: return unchanged when index ≥ size (the null-handle branch
returns too; the model takes the non-null buffer itself); otherwise store
size - 1 and memmove the bytes of elements index+1..size-1 one element back. -/
def cvector_remove (v : CVector) (index : Nat) : CVector :=
  if index ≥ cvector_size v then v
  else
    let new_size := cvector_size v - 1
    let v1 := cvector_set_size v new_size
    let D := memmoveBytes v1.data (index * cvector_element_size v1)
      (index * cvector_element_size v1 + cvector_element_size v1)
      ((new_size - index) * cvector_element_size v1)
    { v1 with data := D }

/-- cvector_clear: store size = 0, keeping capacity and the allocation. -/
def cvector_clear (v : CVector) : CVector :=
  cvector_set_size v 0

/-- cvector_shrink_to_fit: unconditionally call grow with the current size. -/
def cvector_shrink_to_fit (v : CVector) : CVector :=
  cvector_grow v (cvector_size v)

/-- cvector_get: NULL when index < 0 (impossible for size_t) or index ≥ size,
else the reference vec + HEADER_SIZE + index * element_size, modelled as the
byte offset of the slot inside the allocation. -/
def cvector_get (v : CVector) (index : Nat) : Option Nat :=
  if index < 0 ∨ index ≥ cvector_size v then none
  else some (HEADER_SIZE + index * cvector_element_size v)

/-- cvector_swap: the first argument is the handle cell *vec (asserted non-null
content), the second is the char pointer-to-pointer other, which may itself be
null (none) or point at a handle cell holding a possibly-null handle (some b).
When other is non-null the two handles are exchanged unconditionally. -/
def cvector_swap (vec : Option CVector) (other : Option (Option CVector)) :
    Option CVector × Option (Option CVector) :=
  match other with
  | none => (vec, none)
  | some b => (b, some vec)

/-- cvector_clone: malloc HEADER_SIZE + capacity * element_size bytes and memcpy
the whole buffer, header included: the fresh independent buffer carries the
same header fields and the same element-region bytes. -/
def cvector_clone (from_ : CVector) : CVector := from_

/-- k executions of the push_back loop body with one fixed value argument. -/
def pushN (value : Nat → Nat) (v : CVector) : Nat → CVector
  | 0 => v
  | k + 1 => cvector_push_back (pushN value v k) value

/-- k executions of the pop_back loop body. -/
def popN (v : CVector) : Nat → CVector
  | 0 => v
  | k + 1 => cvector_pop_back (popN v k)

/-- cvector_resize: read old_size once; when new_size > old_size, reserve
new_size, store size = 0, then run the push loop new_size - old_size times
(the loop counts with the local old_size, not with the vector's size field);
otherwise run the pop loop old_size - new_size times. -/
def cvector_resize (v : CVector) (new_size : Nat) (value : Nat → Nat) : CVector :=
  if new_size > cvector_size v then
    pushN value (cvector_set_size (cvector_reserve v new_size) 0) (new_size - cvector_size v)
  else
    popN v (cvector_size v - new_size)

/-- The spec's data-model invariant: logical size never exceeds capacity. -/
def sizeInv (v : CVector) : Prop := v.size ≤ v.capacity

/-- The capacity sequence the spec's doubling policy prescribes for appends
starting from capacity 0: before the push that would make size exceed the
capacity, the capacity becomes max(1, 2 * capacity); capSeq k is the capacity
after k appends. -/
def capSeq : Nat → Nat
  | 0 => 0
  | k + 1 => if capSeq k ≤ k then max 1 (2 * capSeq k) else capSeq k

/-- All-zero byte source, used as a concrete value argument. -/
def zeros : Nat → Nat := fun _ => 0

/-- Constant byte source holding 7 in every byte. -/
def sevens : Nat → Nat := fun _ => 7

/-- Constant byte source holding 9 in every byte. -/
def nines : Nat → Nat := fun _ => 9

/-- A concrete empty vector: size 0, capacity 0, element_size 1. -/
def vEmpty : CVector := { size := 0, capacity := 0, element_size := 1, data := zeros }

/-- A concrete full vector: size 1, capacity 1, element_size 1, element byte 7. -/
def vOne : CVector := { size := 1, capacity := 1, element_size := 1, data := sevens }

/-- A concrete full vector: size 2, capacity 2, element_size 2, bytes 7. -/
def vTwo : CVector := { size := 2, capacity := 2, element_size := 2, data := sevens }

/-- A concrete vector with slack: size 1, capacity 2, element_size 1, bytes 7. -/
def vThree : CVector := { size := 1, capacity := 2, element_size := 1, data := sevens }

theorem one_lt_USIZE : 1 < USIZE := by norm_num [USIZE]

theorem addW_eq (a b : Nat) (h : a + b < USIZE) : addW a b = a + b :=
  Nat.mod_eq_of_lt h

theorem subW_one (a : Nat) (h1 : 1 ≤ a) (h2 : a < USIZE) : subW a 1 = a - 1 := by
  have hU := one_lt_USIZE
  unfold subW
  rw [Nat.mod_eq_of_lt hU]
  have he : USIZE - 1 + a = (a - 1) + USIZE := by omega
  rw [he, Nat.add_mod_right, Nat.mod_eq_of_lt (by omega)]

theorem subW_zero_one : subW 0 1 = USIZE - 1 := by
  have hU := one_lt_USIZE
  unfold subW
  rw [Nat.mod_eq_of_lt hU, Nat.add_zero, Nat.mod_eq_of_lt (by omega)]

theorem subW_addW_one (a : Nat) (h : a < USIZE) : subW (addW a 1) 1 = a := by
  have hU := one_lt_USIZE
  unfold subW addW
  rw [Nat.mod_eq_of_lt hU, Nat.add_mod_mod]
  have he : USIZE - 1 + (a + 1) = a + USIZE := by omega
  rw [he, Nat.add_mod_right, Nat.mod_eq_of_lt h]

theorem memmoveBytes_in (D : Nat → Nat) (dst src len off : Nat)
    (h1 : dst ≤ off) (h2 : off < dst + len) :
    memmoveBytes D dst src len off = D (src + (off - dst)) := by
  simp [memmoveBytes, h1, h2]

theorem memmoveBytes_out (D : Nat → Nat) (dst src len off : Nat)
    (h : off < dst ∨ dst + len ≤ off) :
    memmoveBytes D dst src len off = D off := by
  unfold memmoveBytes
  rw [if_neg]
  rintro ⟨h1, h2⟩
  rcases h with h | h <;> omega

theorem memcpyBytes_in (D : Nat → Nat) (dst : Nat) (value : Nat → Nat) (len off : Nat)
    (h1 : dst ≤ off) (h2 : off < dst + len) :
    memcpyBytes D dst value len off = value (off - dst) := by
  simp [memcpyBytes, h1, h2]

theorem memcpyBytes_out (D : Nat → Nat) (dst : Nat) (value : Nat → Nat) (len off : Nat)
    (h : off < dst ∨ dst + len ≤ off) :
    memcpyBytes D dst value len off = D off := by
  unfold memcpyBytes
  rw [if_neg]
  rintro ⟨h1, h2⟩
  rcases h with h | h <;> omega

theorem cvector_push_back_size (v : CVector) (value : Nat → Nat) :
    (cvector_push_back v value).size = addW v.size 1 := by
  by_cases h : v.capacity ≤ v.size <;>
    simp [cvector_push_back, cvector_grow, cvector_set_capacity, cvector_set_size,
      cvector_capacity, cvector_size, cvector_element_size, h]

theorem cvector_push_back_capacity (v : CVector) (value : Nat → Nat) :
    (cvector_push_back v value).capacity =
      if v.capacity ≤ v.size then cvector_compute_next_grow v.capacity else v.capacity := by
  by_cases h : v.capacity ≤ v.size <;>
    simp [cvector_push_back, cvector_grow, cvector_set_capacity, cvector_set_size,
      cvector_capacity, cvector_size, cvector_element_size, h]

theorem cvector_push_back_element_size (v : CVector) (value : Nat → Nat) :
    (cvector_push_back v value).element_size = v.element_size := by
  by_cases h : v.capacity ≤ v.size <;>
    simp [cvector_push_back, cvector_grow, cvector_set_capacity, cvector_set_size,
      cvector_capacity, cvector_size, cvector_element_size, h]

theorem cvector_push_back_data (v : CVector) (value : Nat → Nat) :
    (cvector_push_back v value).data =
      memcpyBytes v.data (v.element_size * v.size) value v.element_size := by
  by_cases h : v.capacity ≤ v.size <;>
    simp [cvector_push_back, cvector_grow, cvector_set_capacity, cvector_set_size,
      cvector_capacity, cvector_size, cvector_element_size, h]

theorem cvector_pop_back_size (v : CVector) : (cvector_pop_back v).size = subW v.size 1 := by
  simp [cvector_pop_back, cvector_set_size, cvector_size]

theorem cvector_pop_back_capacity (v : CVector) :
    (cvector_pop_back v).capacity = v.capacity := by
  simp [cvector_pop_back, cvector_set_size, cvector_size]

theorem cvector_pop_back_element_size (v : CVector) :
    (cvector_pop_back v).element_size = v.element_size := by
  simp [cvector_pop_back, cvector_set_size, cvector_size]

theorem cvector_pop_back_data (v : CVector) : (cvector_pop_back v).data = v.data := by
  simp [cvector_pop_back, cvector_set_size, cvector_size]

theorem cvector_insert_size (v : CVector) (i : Nat) (value : Nat → Nat) :
    (cvector_insert v i value).size = addW v.size 1 := by
  by_cases h : v.capacity ≤ v.size <;>
    by_cases h2 : i < v.size <;>
      simp [cvector_insert, cvector_grow, cvector_set_capacity, cvector_set_size,
        cvector_capacity, cvector_size, cvector_element_size, h, h2]

theorem cvector_insert_capacity (v : CVector) (i : Nat) (value : Nat → Nat) :
    (cvector_insert v i value).capacity =
      if v.capacity ≤ v.size then cvector_compute_next_grow v.capacity else v.capacity := by
  by_cases h : v.capacity ≤ v.size <;>
    by_cases h2 : i < v.size <;>
      simp [cvector_insert, cvector_grow, cvector_set_capacity, cvector_set_size,
        cvector_capacity, cvector_size, cvector_element_size, h, h2]

theorem cvector_insert_element_size (v : CVector) (i : Nat) (value : Nat → Nat) :
    (cvector_insert v i value).element_size = v.element_size := by
  by_cases h : v.capacity ≤ v.size <;>
    by_cases h2 : i < v.size <;>
      simp [cvector_insert, cvector_grow, cvector_set_capacity, cvector_set_size,
        cvector_capacity, cvector_size, cvector_element_size, h, h2]

theorem cvector_insert_data (v : CVector) (i : Nat) (value : Nat → Nat) :
    (cvector_insert v i value).data =
      memcpyBytes (if i < v.size then
          memmoveBytes v.data (i * v.element_size + v.element_size) (i * v.element_size)
            ((v.size - i) * v.element_size)
        else v.data) (v.element_size * i) value v.element_size := by
  by_cases h : v.capacity ≤ v.size <;>
    by_cases h2 : i < v.size <;>
      simp [cvector_insert, cvector_grow, cvector_set_capacity, cvector_set_size,
        cvector_capacity, cvector_size, cvector_element_size, h, h2]

theorem cvector_remove_of_le (v : CVector) (i : Nat) (h : v.size ≤ i) :
    cvector_remove v i = v := by
  simp [cvector_remove, cvector_size, ge_iff_le, h]

theorem cvector_remove_size (v : CVector) (i : Nat) (h : i < v.size) :
    (cvector_remove v i).size = v.size - 1 := by
  simp [cvector_remove, cvector_size, cvector_set_size, cvector_element_size, ge_iff_le,
    Nat.not_le.mpr h]

theorem cvector_remove_capacity (v : CVector) (i : Nat) (h : i < v.size) :
    (cvector_remove v i).capacity = v.capacity := by
  simp [cvector_remove, cvector_size, cvector_set_size, cvector_element_size, ge_iff_le,
    Nat.not_le.mpr h]

theorem cvector_remove_element_size (v : CVector) (i : Nat) (h : i < v.size) :
    (cvector_remove v i).element_size = v.element_size := by
  simp [cvector_remove, cvector_size, cvector_set_size, cvector_element_size, ge_iff_le,
    Nat.not_le.mpr h]

theorem cvector_remove_data (v : CVector) (i : Nat) (h : i < v.size) :
    (cvector_remove v i).data =
      memmoveBytes v.data (i * v.element_size) (i * v.element_size + v.element_size)
        ((v.size - 1 - i) * v.element_size) := by
  simp [cvector_remove, cvector_size, cvector_set_size, cvector_element_size, ge_iff_le,
    Nat.not_le.mpr h]

theorem two_mul_pow_63 : 2 * 2 ^ 63 = USIZE := by norm_num [USIZE]

theorem compute_next_grow_eq (c : Nat) (h : 2 * c < USIZE) :
    cvector_compute_next_grow c = max 1 (2 * c) := by
  unfold cvector_compute_next_grow
  by_cases h0 : c = 0
  · simp [h0]
  · have h1 : c <<< 1 = 2 * c := by rw [Nat.shiftLeft_eq]; ring
    rw [if_pos h0, h1, Nat.mod_eq_of_lt h, Nat.max_eq_right (by omega)]

theorem cvector_reserve_capacity (v : CVector) (n : Nat) :
    (cvector_reserve v n).capacity = if v.capacity < n then n else v.capacity := by
  by_cases h : v.capacity < n <;>
    simp [cvector_reserve, cvector_grow, cvector_set_capacity, cvector_capacity, h]

theorem cvector_reserve_size (v : CVector) (n : Nat) :
    (cvector_reserve v n).size = v.size := by
  by_cases h : v.capacity < n <;>
    simp [cvector_reserve, cvector_grow, cvector_set_capacity, cvector_capacity, h]

theorem cvector_reserve_element_size (v : CVector) (n : Nat) :
    (cvector_reserve v n).element_size = v.element_size := by
  by_cases h : v.capacity < n <;>
    simp [cvector_reserve, cvector_grow, cvector_set_capacity, cvector_capacity, h]

theorem cvector_reserve_data (v : CVector) (n : Nat) :
    (cvector_reserve v n).data = v.data := by
  by_cases h : v.capacity < n <;>
    simp [cvector_reserve, cvector_grow, cvector_set_capacity, cvector_capacity, h]

theorem push_back_sizeInv (v : CVector) (value : Nat → Nat) (hv : sizeInv v)
    (hc : 2 * v.capacity < USIZE) (hs : v.size + 1 < USIZE) :
    sizeInv (cvector_push_back v value) := by
  unfold sizeInv at *
  rw [cvector_push_back_size, cvector_push_back_capacity, addW_eq _ _ hs]
  by_cases h : v.capacity ≤ v.size
  · rw [if_pos h, compute_next_grow_eq _ hc]
    omega
  · rw [if_neg h]
    omega

theorem insert_sizeInv (v : CVector) (i : Nat) (value : Nat → Nat) (hv : sizeInv v)
    (hc : 2 * v.capacity < USIZE) (hs : v.size + 1 < USIZE) :
    sizeInv (cvector_insert v i value) := by
  unfold sizeInv at *
  rw [cvector_insert_size, cvector_insert_capacity, addW_eq _ _ hs]
  by_cases h : v.capacity ≤ v.size
  · rw [if_pos h, compute_next_grow_eq _ hc]
    omega
  · rw [if_neg h]
    omega

theorem pop_back_sizeInv (v : CVector) (hv : sizeInv v) (h1 : 1 ≤ v.size)
    (hU : v.size < USIZE) : sizeInv (cvector_pop_back v) := by
  unfold sizeInv at *
  rw [cvector_pop_back_size, cvector_pop_back_capacity, subW_one _ h1 hU]
  omega

theorem remove_sizeInv (v : CVector) (i : Nat) (hv : sizeInv v) :
    sizeInv (cvector_remove v i) := by
  by_cases h : i < v.size
  · unfold sizeInv at *
    rw [cvector_remove_size _ _ h, cvector_remove_capacity _ _ h]
    omega
  · rw [cvector_remove_of_le _ _ (by omega)]
    exact hv

theorem pushN_no_grow (value : Nat → Nat) (v : CVector) :
    ∀ k, v.size + k ≤ v.capacity → v.size + k < USIZE →
      (pushN value v k).size = v.size + k ∧ (pushN value v k).capacity = v.capacity ∧
        (pushN value v k).element_size = v.element_size := by
  intro k
  induction k with
  | zero => intro _ _; simp [pushN]
  | succ k ih =>
    intro hcap hU
    obtain ⟨h1, h2, h3⟩ := ih (by omega) (by omega)
    refine ⟨?_, ?_, ?_⟩
    · simp only [pushN]
      rw [cvector_push_back_size, h1, addW_eq _ _ (by omega)]
      omega
    · simp only [pushN]
      rw [cvector_push_back_capacity, h1, h2, if_neg (by omega)]
    · simp only [pushN]
      rw [cvector_push_back_element_size, h3]

theorem popN_spec (v : CVector) :
    ∀ k, k ≤ v.size → v.size < USIZE →
      (popN v k).size = v.size - k ∧ (popN v k).capacity = v.capacity ∧
        (popN v k).element_size = v.element_size ∧ (popN v k).data = v.data := by
  intro k
  induction k with
  | zero => intro _ _; simp [popN]
  | succ k ih =>
    intro hk hU
    obtain ⟨h1, h2, h3, h4⟩ := ih (by omega) hU
    refine ⟨?_, ?_, ?_, ?_⟩
    · simp only [popN]
      rw [cvector_pop_back_size, h1, subW_one _ (by omega) (by omega)]
      omega
    · simp only [popN]
      rw [cvector_pop_back_capacity, h2]
    · simp only [popN]
      rw [cvector_pop_back_element_size, h3]
    · simp only [popN]
      rw [cvector_pop_back_data, h4]

theorem resize_sizeInv (v : CVector) (n : Nat) (value : Nat → Nat) (hv : sizeInv v)
    (hsU : v.size < USIZE) (hnU : n < USIZE) : sizeInv (cvector_resize v n value) := by
  unfold cvector_resize
  by_cases h : n > cvector_size v
  · rw [if_pos h]
    have hsz : (cvector_set_size (cvector_reserve v n) 0).size = 0 := rfl
    have hcp : (cvector_set_size (cvector_reserve v n) 0).capacity =
        if v.capacity < n then n else v.capacity := cvector_reserve_capacity v n
    obtain ⟨h1, h2, _⟩ := pushN_no_grow value (cvector_set_size (cvector_reserve v n) 0)
      (n - cvector_size v) (by rw [hsz, hcp]; split <;> (unfold cvector_size at h; omega))
      (by rw [hsz]; omega)
    unfold sizeInv
    rw [h1, h2, hsz, hcp]
    split <;> (unfold cvector_size at h; omega)
  · rw [if_neg h]
    obtain ⟨h1, h2, _, _⟩ := popN_spec v (cvector_size v - n) (by unfold cvector_size; omega) hsU
    unfold sizeInv at *
    rw [h1, h2]
    unfold cvector_size at *
    omega

theorem capSeq_succ (k : Nat) :
    capSeq (k + 1) = if capSeq k ≤ k then max 1 (2 * capSeq k) else capSeq k := by
  simp [capSeq]

theorem capSeq_pow : ∀ k, 1 ≤ k → ∃ j, capSeq k = 2 ^ j := by
  intro k
  induction k with
  | zero => intro h; omega
  | succ k ih =>
    intro _
    rw [capSeq_succ]
    by_cases hg : capSeq k ≤ k
    · by_cases h0 : capSeq k = 0
      · exact ⟨0, by simp [h0]⟩
      · have hk1 : 1 ≤ k := by
          by_contra hc
          have hk0 : k = 0 := by omega
          rw [hk0] at h0
          simp [capSeq] at h0
        obtain ⟨j, hj⟩ := ih hk1
        refine ⟨j + 1, ?_⟩
        have hone : 1 ≤ 2 * 2 ^ j :=
          Nat.one_le_two_pow.trans (Nat.le_mul_of_pos_left _ (by norm_num))
        rw [if_pos hg, hj, Nat.max_eq_right hone, pow_succ]
        ring
    · have hk1 : 1 ≤ k := by
        by_contra hc
        have hk0 : k = 0 := by omega
        rw [hk0] at hg
        simp [capSeq] at hg
      obtain ⟨j, hj⟩ := ih hk1
      exact ⟨j, by rw [if_neg hg]; exact hj⟩

theorem pushN_capSeq (v0 : CVector) (value : Nat → Nat) (hsz : v0.size = 0)
    (hcap : v0.capacity = 0) :
    ∀ k, k ≤ 2 ^ 63 → (pushN value v0 k).size = k ∧ (pushN value v0 k).capacity = capSeq k := by
  intro k
  induction k with
  | zero => intro _; exact ⟨hsz, by simp [pushN, capSeq, hcap]⟩
  | succ k ih =>
    intro hk
    obtain ⟨hs, hc⟩ := ih (by omega)
    have hkU : k + 1 < USIZE := by
      calc k + 1 ≤ 2 ^ 63 := hk
        _ < USIZE := by norm_num [USIZE]
    constructor
    · simp only [pushN]
      rw [cvector_push_back_size, hs, addW_eq _ _ hkU]
    · simp only [pushN]
      rw [cvector_push_back_capacity, hs, hc, capSeq_succ]
      by_cases hg : capSeq k ≤ k
      · have hb : 2 * capSeq k < USIZE := by
          calc 2 * capSeq k ≤ 2 * k := by omega
            _ < 2 * (k + 1) := by omega
            _ ≤ 2 * 2 ^ 63 := by omega
            _ = USIZE := two_mul_pow_63
        rw [if_pos hg, if_pos hg, compute_next_grow_eq _ hb]
      · rw [if_neg hg, if_neg hg]

/-- C1: evaluation of cvector_resize at a failing input: a vector with size 1,
capacity 1, element_size 1 and element byte 7, resized to new_size 2 with fill
byte 9, ends with size 1 rather than 2 and its first element overwritten with
the fill byte.  The grow path resets the size field to 0 but counts its push
loop with the local old_size, so it pushes only new_size - old_size times,
contradicting the function's own doc (resizes the container to contain count
elements, value initializes the new elements). -/
theorem C1_resize_grow_bug :
    (cvector_resize vOne 2 nines).size = 1 ∧ ¬ (cvector_resize vOne 2 nines).size = 2 ∧
      (cvector_resize vOne 2 nines).data 0 = 9 ∧ vOne.data 0 = 7 := by decide

/-- C2 counterexample: on the empty vector with capacity 0, push_back grows the
capacity to 1 and the following pop_back leaves it at 1, so push_back then
pop_back does not restore both header fields as the claim states. -/
theorem C2_push_pop_counterexample :
    ¬ ((cvector_pop_back (cvector_push_back vEmpty zeros)).size = vEmpty.size ∧
        (cvector_pop_back (cvector_push_back vEmpty zeros)).capacity = vEmpty.capacity) := by
  decide

/-- C2 amended: push_back then pop_back always restores the size field; the
capacity field is restored exactly when the push did not trigger growth (size <
capacity before the call); when capacity ≤ size the push grows the capacity to
compute_next_grow(capacity) and pop_back leaves the grown capacity in place. -/
theorem C2_push_pop_restores_size (v : CVector) (value : Nat → Nat) (hs : v.size < USIZE) :
    (cvector_pop_back (cvector_push_back v value)).size = v.size ∧
      (v.size < v.capacity →
        (cvector_pop_back (cvector_push_back v value)).capacity = v.capacity) ∧
      (v.capacity ≤ v.size →
        (cvector_pop_back (cvector_push_back v value)).capacity =
          cvector_compute_next_grow v.capacity) := by
  refine ⟨?_, ?_, ?_⟩
  · rw [cvector_pop_back_size, cvector_push_back_size, subW_addW_one _ hs]
  · intro h
    rw [cvector_pop_back_capacity, cvector_push_back_capacity, if_neg (by omega)]
  · intro h
    rw [cvector_pop_back_capacity, cvector_push_back_capacity, if_pos h]

theorem C2_push_pop_restores_size_witness :
    (cvector_pop_back (cvector_push_back vThree zeros)).size = vThree.size ∧
      (cvector_pop_back (cvector_push_back vThree zeros)).capacity = vThree.capacity := by
  obtain ⟨h1, h2, -⟩ := C2_push_pop_restores_size vThree zeros (by norm_num [vThree, USIZE])
  exact ⟨h1, h2 (by norm_num [vThree])⟩

/-- C3 counterexample: with a non-null first handle and a null second handle held
in a non-null cell, cvector_swap still exchanges: the first handle does not stay
unchanged, it becomes null. -/
theorem C3_swap_null_handle_counterexample :
    (cvector_swap (some vOne) (some none)).1 ≠ some vOne := by
  intro h
  exact Option.noConfusion h

/-- C3 amended: the no-op guard of cvector_swap tests the second pointer-to-handle
argument, not the handle it points to: when other is NULL the first handle is left
unchanged, and when other points at a handle cell, even one holding a null handle,
the exchange happens unconditionally. -/
theorem C3_swap_null_pointer_noop (a : Option CVector) (ha : a ≠ none) :
    (cvector_swap a none).1 = a ∧ (cvector_swap a none).2 = none ∧
      ∀ b, (cvector_swap a (some b)).1 = b ∧ (cvector_swap a (some b)).2 = some a :=
  ⟨rfl, rfl, fun b => ⟨rfl, rfl⟩⟩

theorem C3_swap_null_pointer_noop_witness :
    (cvector_swap (some vOne) none).1 = some vOne ∧
      (cvector_swap (some vOne) (some none)).1 = none := by
  obtain ⟨h1, -, h3⟩ := C3_swap_null_pointer_noop (some vOne) (by simp)
  exact ⟨h1, (h3 none).1⟩

/-- C5: starting from size 0 and capacity 0, k consecutive push_back calls leave
size k and capacity exactly the value the spec's doubling policy prescribes
(capSeq, so growth happens exactly when size would exceed capacity and sets it to
max(1, 2 * capacity)), and after the first push every capacity reached is a power
of two: 1, 2, 4, 8, and so on. -/
theorem C5_doubling_growth (v0 : CVector) (value : Nat → Nat) (N : Nat)
    (hsz : v0.size = 0) (hcap : v0.capacity = 0) (hN : N ≤ 2 ^ 63) :
    ∀ k, k ≤ N → (pushN value v0 k).size = k ∧ (pushN value v0 k).capacity = capSeq k ∧
      (1 ≤ k → ∃ j, (pushN value v0 k).capacity = 2 ^ j) := by
  intro k hk
  obtain ⟨h1, h2⟩ := pushN_capSeq v0 value hsz hcap k (le_trans hk hN)
  refine ⟨h1, h2, ?_⟩
  intro hk1
  obtain ⟨j, hj⟩ := capSeq_pow k hk1
  exact ⟨j, by rw [h2, hj]⟩

theorem C5_doubling_growth_witness :
    (pushN zeros vEmpty 5).size = 5 ∧ (pushN zeros vEmpty 5).capacity = capSeq 5 ∧
      (pushN zeros vEmpty 5).capacity = 8 := by
  obtain ⟨h1, h2, -⟩ := C5_doubling_growth vEmpty zeros 5 rfl rfl (by norm_num) 5 le_rfl
  exact ⟨h1, h2, by rw [h2]; decide⟩

/-- C6: cvector_get returns the reference at allocation offset HEADER_SIZE +
index * element_size whenever index < size, and the absent result (NULL) whenever
index ≥ size, on a vector of any size including an empty one. -/
theorem C6_get_in_bounds_or_absent (v : CVector) (i : Nat) :
    (i < v.size → cvector_get v i = some (HEADER_SIZE + i * v.element_size)) ∧
      (v.size ≤ i → cvector_get v i = none) := by
  constructor
  · intro h
    simp [cvector_get, cvector_size, cvector_element_size, Nat.not_le.mpr h]
  · intro h
    simp [cvector_get, cvector_size, h]

theorem C6_get_in_bounds_or_absent_witness :
    cvector_get vTwo 1 = some (HEADER_SIZE + 1 * vTwo.element_size) ∧
      cvector_get vTwo 5 = none := by
  refine ⟨(C6_get_in_bounds_or_absent vTwo 1).1 ?_, (C6_get_in_bounds_or_absent vTwo 5).2 ?_⟩ <;>
    norm_num [vTwo]

/-- C8: shrink_to_fit is exactly the grow/realloc call at the current size, so the
reallocation is issued even when capacity already equals size; it leaves capacity
equal to size and preserves size, element_size and the bytes of every stored
element. -/
theorem C8_shrink_to_fit_exact (v : CVector) :
    cvector_shrink_to_fit v = cvector_grow v v.size ∧
      (cvector_shrink_to_fit v).capacity = v.size ∧
      (cvector_shrink_to_fit v).size = v.size ∧
      (cvector_shrink_to_fit v).element_size = v.element_size ∧
      ∀ off, off < v.size * v.element_size →
        (cvector_shrink_to_fit v).data off = v.data off := by
  refine ⟨rfl, ?_, ?_, ?_, ?_⟩ <;>
    simp [cvector_shrink_to_fit, cvector_grow, cvector_set_capacity, cvector_size]

theorem C8_shrink_to_fit_exact_witness :
    (cvector_shrink_to_fit vTwo).capacity = vTwo.size ∧
      (cvector_shrink_to_fit vTwo).data 0 = vTwo.data 0 := by
  obtain ⟨-, h2, -, -, h5⟩ := C8_shrink_to_fit_exact vTwo
  exact ⟨h2, h5 0 (by norm_num [vTwo])⟩

/-- C9: pop_back on an empty vector stores (0 - 1) mod 2^64 in the unsigned
64-bit size field, leaving the enormous apparent size 2^64 - 1 instead of
halting or reporting an error. -/
theorem C9_pop_back_empty_underflow (v : CVector) (h : v.size = 0) :
    (cvector_pop_back v).size = 2 ^ 64 - 1 := by
  rw [cvector_pop_back_size, h, subW_zero_one]
  norm_num [USIZE]

theorem C9_pop_back_empty_underflow_witness :
    (cvector_pop_back vEmpty).size = 2 ^ 64 - 1 :=
  C9_pop_back_empty_underflow vEmpty rfl

/-- C10: remove at a valid index i leaves the capacity field, the element_size
field and every byte of the elements strictly below index i unchanged. -/
theorem C10_remove_frame (v : CVector) (i : Nat) (hi : i < v.size) :
    (cvector_remove v i).capacity = v.capacity ∧
      (cvector_remove v i).element_size = v.element_size ∧
      ∀ off, off < i * v.element_size → (cvector_remove v i).data off = v.data off := by
  refine ⟨cvector_remove_capacity v i hi, cvector_remove_element_size v i hi, ?_⟩
  intro off hoff
  rw [cvector_remove_data v i hi]
  exact memmoveBytes_out _ _ _ _ _ (Or.inl hoff)

theorem C10_remove_frame_witness :
    (cvector_remove vTwo 1).capacity = vTwo.capacity ∧
      (cvector_remove vTwo 1).element_size = vTwo.element_size ∧
      (cvector_remove vTwo 1).data 0 = vTwo.data 0 := by
  obtain ⟨h1, h2, h3⟩ := C10_remove_frame vTwo 1 (by norm_num [vTwo])
  exact ⟨h1, h2, h3 0 (by norm_num [vTwo])⟩

/-- C4: insert at any index i ≤ size followed by remove at i restores the element
sequence exactly: the size field and the bytes of elements 0 through size-1 are
the ones from before the insert. -/
theorem C4_insert_remove_inverse (v : CVector) (i : Nat) (value : Nat → Nat)
    (hi : i ≤ v.size) (hU : v.size + 1 < USIZE) :
    (cvector_remove (cvector_insert v i value) i).size = v.size ∧
      (cvector_remove (cvector_insert v i value) i).element_size = v.element_size ∧
      ∀ off, off < v.size * v.element_size →
        (cvector_remove (cvector_insert v i value) i).data off = v.data off := by
  have hins_size : (cvector_insert v i value).size = v.size + 1 := by
    rw [cvector_insert_size, addW_eq _ _ hU]
  have hins_es : (cvector_insert v i value).element_size = v.element_size :=
    cvector_insert_element_size v i value
  have hlt : i < (cvector_insert v i value).size := by omega
  refine ⟨?_, ?_, ?_⟩
  · rw [cvector_remove_size _ _ hlt, hins_size]
    omega
  · rw [cvector_remove_element_size _ _ hlt, hins_es]
  · intro off hoff
    rw [cvector_remove_data _ _ hlt, hins_size, hins_es, cvector_insert_data]
    have hered : v.size + 1 - 1 - i = v.size - i := by omega
    rw [hered, Nat.mul_comm v.element_size i]
    have hsum : i * v.element_size + (v.size - i) * v.element_size =
        v.size * v.element_size := by
      rw [← Nat.add_mul, Nat.add_sub_cancel' hi]
    by_cases hcase : off < i * v.element_size
    · rw [memmoveBytes_out _ _ _ _ _ (Or.inl hcase),
        memcpyBytes_out _ _ _ _ _ (Or.inl hcase)]
      by_cases his : i < v.size
      · rw [if_pos his]
        exact memmoveBytes_out _ _ _ _ _ (Or.inl (by omega))
      · rw [if_neg his]
    · push_neg at hcase
      have his : i < v.size := by
        by_contra hc
        have h0 : (v.size - i) * v.element_size = 0 := by
          have hz : v.size - i = 0 := by omega
          rw [hz, Nat.zero_mul]
        omega
      rw [if_pos his]
      rw [memmoveBytes_in _ _ _ _ _ hcase (by omega)]
      have harg : i * v.element_size + v.element_size + (off - i * v.element_size) =
          off + v.element_size := by omega
      rw [harg]
      rw [memcpyBytes_out _ _ _ _ _ (Or.inr (by omega))]
      rw [memmoveBytes_in _ _ _ _ _ (by omega) (by omega)]
      congr 1
      omega

theorem C4_insert_remove_inverse_witness :
    (cvector_remove (cvector_insert vTwo 1 nines) 1).size = vTwo.size ∧
      (cvector_remove (cvector_insert vTwo 1 nines) 1).data 0 = vTwo.data 0 := by
  obtain ⟨h1, -, h3⟩ := C4_insert_remove_inverse vTwo 1 nines (by norm_num [vTwo])
    (by norm_num [vTwo, USIZE])
  exact ⟨h1, h3 0 (by norm_num [vTwo])⟩

/-- C7: the invariant size ≤ capacity is preserved by every operation of the
container under each operation's preconditions: init starts at 0 ≤ 0; reserve,
shrink-to-fit, clear, remove, resize, clone preserve it outright; grow needs its
requested capacity to cover the size; push_back and insert need the doubled
capacity and incremented size to be representable in size_t (any buffer a
successful realloc produces satisfies this); pop_back needs a non-empty vector;
swap merely permutes the two handles. -/
theorem C7_size_le_capacity (v w : CVector) (value g : Nat → Nat) (i n es cap : Nat)
    (hv : sizeInv v) (hw : sizeInv w) (hsU : v.size < USIZE) (hnU : n < USIZE) :
    sizeInv (cvector_init cap es g) ∧
      sizeInv (cvector_reserve v n) ∧
      (v.size ≤ n → sizeInv (cvector_grow v n)) ∧
      sizeInv (cvector_shrink_to_fit v) ∧
      (2 * v.capacity < USIZE → v.size + 1 < USIZE → sizeInv (cvector_push_back v value)) ∧
      (1 ≤ v.size → sizeInv (cvector_pop_back v)) ∧
      (2 * v.capacity < USIZE → v.size + 1 < USIZE → sizeInv (cvector_insert v i value)) ∧
      sizeInv (cvector_remove v i) ∧
      sizeInv (cvector_clear v) ∧
      sizeInv (cvector_resize v n value) ∧
      sizeInv (cvector_clone v) ∧
      (∀ u, (cvector_swap (some v) (some (some w))).1 = some u → sizeInv u) ∧
      (∀ h2 u, (cvector_swap (some v) (some (some w))).2 = some h2 → h2 = some u →
        sizeInv u) ∧
      (∀ u, (cvector_swap (some v) none).1 = some u → sizeInv u) := by
  refine ⟨?_, ?_, ?_, ?_, ?_, ?_, ?_, ?_, ?_, ?_, ?_, ?_, ?_, ?_⟩
  · unfold sizeInv
    simp [cvector_init]
  · unfold sizeInv at hv ⊢
    rw [cvector_reserve_size, cvector_reserve_capacity]
    split <;> omega
  · intro h
    unfold sizeInv
    simpa [cvector_grow, cvector_set_capacity] using h
  · unfold sizeInv
    simp [cvector_shrink_to_fit, cvector_grow, cvector_set_capacity, cvector_size]
  · exact fun h1 h2 => push_back_sizeInv v value hv h1 h2
  · exact fun h1 => pop_back_sizeInv v hv h1 hsU
  · exact fun h1 h2 => insert_sizeInv v i value hv h1 h2
  · exact remove_sizeInv v i hv
  · unfold sizeInv
    simp [cvector_clear, cvector_set_size]
  · exact resize_sizeInv v n value hv hsU hnU
  · exact hv
  · intro u hu
    have h3 : (some w : Option CVector) = some u := hu
    exact (Option.some.inj h3) ▸ hw
  · intro h2 u hu hcontent
    have h3 : (some (some v) : Option (Option CVector)) = some h2 := hu
    have h4 : some v = h2 := Option.some.inj h3
    rw [← h4] at hcontent
    exact (Option.some.inj hcontent) ▸ hv
  · intro u hu
    have h3 : (some v : Option CVector) = some u := hu
    exact (Option.some.inj h3) ▸ hv

theorem C7_size_le_capacity_witness :
    sizeInv (cvector_init 5 4 zeros) ∧ sizeInv (cvector_reserve vThree 3) ∧
      sizeInv (cvector_grow vThree 3) ∧ sizeInv (cvector_shrink_to_fit vThree) ∧
      sizeInv (cvector_push_back vThree zeros) ∧ sizeInv (cvector_pop_back vThree) ∧
      sizeInv (cvector_insert vThree 0 zeros) ∧ sizeInv (cvector_remove vThree 0) ∧
      sizeInv (cvector_clear vThree) ∧ sizeInv (cvector_resize vThree 3 zeros) ∧
      sizeInv (cvector_clone vThree) ∧ sizeInv vTwo ∧ sizeInv vThree := by
  obtain ⟨h1, h2, h3, h4, h5, h6, h7, h8, h9, h10, h11, h12, h13, h14⟩ :=
    C7_size_le_capacity vThree vTwo zeros zeros 0 3 4 5 (by norm_num [sizeInv, vThree])
      (by norm_num [sizeInv, vTwo]) (by norm_num [vThree, USIZE]) (by norm_num [USIZE])
  exact ⟨h1, h2, h3 (by norm_num [vThree]), h4,
    h5 (by norm_num [vThree, USIZE]) (by norm_num [vThree, USIZE]),
    h6 (by norm_num [vThree]),
    h7 (by norm_num [vThree, USIZE]) (by norm_num [vThree, USIZE]), h8, h9, h10, h11,
    h12 vTwo rfl, h13 (some vThree) vThree rfl rfl⟩
